import Mathlib

/-!
# Client gateway of the VISSv2 server: `utils/managerhandlers.go`

A shallow embedding of the pure parts of `managerhandlers.go` (routing tag
insertion and removal, query-suffix splitting, client-certificate policy
mapping, TLS configuration building, listener start-up, WebSocket
subprotocol negotiation and the two pumps of a WebSocket session), followed by
theorems about them.

Conventions of the embedding:

* a Go `string` is a sequence of bytes; it is modelled by `List Char`, every
  element standing for one byte (all literals of the source are ASCII);
* a Go `int` is 64 bits wide; indices and identifiers are modelled by `Int`;
* a Go run-time panic (index or slice bounds out of range) is modelled by the
  `Except.error` case of `Except Panic`;
* a loop that works on channels and on the connection is modelled by the trace
  of its operations, in program order.
-/

namespace Viss2

/-- A Go string: a sequence of bytes, one `Char` standing for one byte. -/
abbrev GoString := List Char

/-- The run-time panics the embedded code can raise. -/
inductive Panic where
  | indexOutOfRange
  | sliceBoundsOutOfRange
  deriving DecidableEq, Repr

deriving instance DecidableEq for Except

/-- The byte `"` (0x22). -/
def quoteMark : Char := Char.ofNat 34

/-- The byte that opens a JSON object (0x7b). -/
def openBrace : Char := Char.ofNat 123

/-! ## Go string primitives -/

/-- Go `s[i]`: the byte at index `i`, a panic when `i` is out of range. -/
def byteAt (s : GoString) (i : Int) : Except Panic Char :=
  if 0 ≤ i ∧ i < s.length then
    match s.get? i.toNat with
    | some c => .ok c
    | none => .error .indexOutOfRange
  else .error .indexOutOfRange

/-- Go `s[a:]`: a panic unless `0 ≤ a ≤ len(s)`. -/
def sliceFrom (s : GoString) (a : Int) : Except Panic GoString :=
  if 0 ≤ a ∧ a ≤ s.length then .ok (s.drop a.toNat) else .error .sliceBoundsOutOfRange

/-- Go `s[:b]`: a panic unless `0 ≤ b ≤ len(s)`. -/
def sliceTo (s : GoString) (b : Int) : Except Panic GoString :=
  if 0 ≤ b ∧ b ≤ s.length then .ok (s.take b.toNat) else .error .sliceBoundsOutOfRange

/-- Go `s[a:b]`: a panic unless `0 ≤ a ≤ b ≤ len(s)`. -/
def slice (s : GoString) (a b : Int) : Except Panic GoString :=
  if 0 ≤ a ∧ a ≤ b ∧ b ≤ s.length then .ok ((s.take b.toNat).drop a.toNat)
  else .error .sliceBoundsOutOfRange

/-- The scan of `strings.Index`: the first position, counted from `i`, at which
`substr` is a prefix of what is left of the string; `-1` when there is none. -/
def indexFrom (substr : GoString) : GoString → Nat → Int
  | [], i => if substr.isEmpty then (i : Int) else -1
  | c :: cs, i => if substr.isPrefixOf (c :: cs) then (i : Int) else indexFrom substr cs (i + 1)

/-- Go `strings.Index(s, substr)`: the index of the first instance of `substr`
in `s`, or `-1` if `substr` is not present in `s`. -/
def Index (s substr : GoString) : Int := indexFrom substr s 0

/-- Go `strings.Replace(s, old, new, 1)`: the first instance of `old` replaced
by `new`; `s` itself when `old` does not occur. -/
def ReplaceFirst (s old new : GoString) : GoString :=
  let i := Index s old
  if i < 0 then s else s.take i.toNat ++ new ++ s.drop (i.toNat + old.length)

/-! ## `certOptToInt` (lines 293-304) -/

/-- The value `tls.RequireAndVerifyClientCert`, the largest `tls.ClientAuthType`. -/
def RequireAndVerifyClientCert : Int := 4

/-- The value `tls.RequestClientCert`. -/
def RequestClientCert : Int := 1

/-- The function `certOptToInt`: the configured policy name as a `tls.ClientAuthType` number. -/
def certOptToInt (serverCertOpt : GoString) : Int :=
  if serverCertOpt = "NoClientCert".toList then 0
  else if serverCertOpt = "ClientCertNoVerification".toList then 2
  else if serverCertOpt = "ClientCertVerification".toList then 4
  else 4

/-! ## `splitToPathQueryKeyValue` (lines 71-81) -/

/-- The function `splitToPathQueryKeyValue`: the path, the query key and the query value. -/
def splitToPathQueryKeyValue (path : GoString) :
    Except Panic (GoString × GoString × GoString) :=
  let delim := Index path "?".toList
  if delim ≠ -1 then do
    let c ← byteAt path (delim + 1)
    if c = 'f' then do
      let p ← sliceTo path delim
      let v ← sliceFrom path (delim + 8)
      pure (p, "filter".toList, v)
    else do
      let c2 ← byteAt path (delim + 1)
      if c2 = 'm' then do
        let p ← sliceTo path delim
        let v ← sliceFrom path (delim + 10)
        pure (p, "metadata".toList, v)
      else pure (path, [], [])
  else pure (path, [], [])

/-! ## `strconv.Itoa` and `strconv.Atoi` -/

/-- The ASCII digit of `d` (for `d < 10`). -/
def digitByte (d : Nat) : Char := Char.ofNat (48 + d)

/-- The decimal digits of `n`, least significant first (`fuel` bounds the number of digits). -/
def decimalRev : Nat → Nat → GoString
  | 0, _ => []
  | fuel + 1, n => if n < 10 then [digitByte n] else digitByte (n % 10) :: decimalRev fuel (n / 10)

/-- The decimal digits of `n`, most significant first. -/
def decimal (n : Nat) : GoString := (decimalRev (n + 1) n).reverse

/-- Go `strconv.Itoa(i)`: the decimal text of `i`, with a leading `-` when negative. -/
def Itoa (i : Int) : GoString :=
  if i < 0 then '-' :: decimal (-i).toNat else decimal i.toNat

/-- The two error kinds of `strconv.NumError`. -/
inductive NumError where
  | ErrSyntax
  | ErrRange
  deriving DecidableEq, Repr

/-- The largest `uint64`. -/
def maxUint64 : Nat := 2 ^ 64 - 1

/-- The digit loop of `strconv.ParseUint(s, 10, 64)`: a byte that is no digit is
a syntax error with value 0; an overflow of `uint64` is a range error with the
largest value, reported as soon as it is met. -/
def parseUintLoop : GoString → Nat → Nat × Option NumError
  | [], n => (n, none)
  | c :: cs, n =>
    if 48 ≤ c.toNat ∧ c.toNat ≤ 57 then
      if n ≥ maxUint64 / 10 + 1 then (maxUint64, some .ErrRange)
      else if n * 10 + (c.toNat - 48) > maxUint64 then (maxUint64, some .ErrRange)
      else parseUintLoop cs (n * 10 + (c.toNat - 48))
    else (0, some .ErrSyntax)

/-- Go `strconv.ParseUint(s, 10, 64)`. -/
def ParseUint (s : GoString) : Nat × Option NumError :=
  if s = [] then (0, some .ErrSyntax) else parseUintLoop s 0

/-- Go `strconv.ParseInt(s, 10, 0)` with a 64-bit `int`: an optional sign and
decimal digits; value 0 on a syntax error, the nearest `int` on a range error. -/
def ParseInt (s : GoString) : Int × Option NumError :=
  match s with
  | [] => (0, some .ErrSyntax)
  | c :: cs =>
    let neg : Bool := decide (c = '-')
    let body : GoString := if c = '+' ∨ c = '-' then cs else c :: cs
    let r := ParseUint body
    if r.2 = some .ErrSyntax then (0, r.2)
    else if neg = false ∧ r.1 ≥ 2 ^ 63 then (2 ^ 63 - 1, some .ErrRange)
    else if neg = true ∧ r.1 > 2 ^ 63 then (-(2 ^ 63), some .ErrRange)
    else (if neg then -(r.1 : Int) else (r.1 : Int), none)

/-- Go `strconv.Atoi(s)`, which is `ParseInt(s, 10, 0)` converted to `int`. -/
def Atoi (s : GoString) : Int × Option NumError := ParseInt s

/-- The values of a Go `int` (64 bits). -/
def isGoInt (i : Int) : Prop := -(2 ^ 63) ≤ i ∧ i < 2 ^ 63

instance (i : Int) : Decidable (isGoInt i) := by unfold isGoInt; infer_instance

/-- A byte that is an ASCII decimal digit. -/
def isDigitByte (ch : Char) : Prop := 48 ≤ ch.toNat ∧ ch.toNat ≤ 57

/-- The value of a digit string read most significant digit first, from `acc`. -/
def valueBE (acc : Nat) (ds : GoString) : Nat :=
  ds.foldl (fun a ch => a * 10 + (ch.toNat - 48)) acc

/-! ## Routing tag: `AddRoutingForwardRequest` (lines 42-46) and `RemoveInternalData` (lines 328-336) -/

/-- The function `AddRoutingForwardRequest`; the result is the request it sends
on `transportMgrChan`. -/
def AddRoutingForwardRequest (reqMessage : GoString) (mgrId clientId : Int) : GoString :=
  let newPrefix := "\x7b \"RouterId\":\"".toList ++ Itoa mgrId ++ "?".toList ++ Itoa clientId
    ++ "\", ".toList
  ReplaceFirst reqMessage "\x7b".toList newPrefix

/-- The scan of `NextQuoteMark`: the index, counted from `i`, of the first `"`. -/
def scanQuoteMark : GoString → Int → Option Int
  | [], _ => none
  | c :: cs, i => if c = quoteMark then some i else scanQuoteMark cs (i + 1)

/-- Modelled from the spec: `NextQuoteMark` is a helper of package `utils` that
`managerhandlers.go` calls and does not define. It is taken as the index of the
first `"` of `message` at or after `offset`; when there is none the offset is
returned, a case no theorem below depends on. -/
def NextQuoteMark (message : GoString) (offset : Int) : Int :=
  (scanQuoteMark (message.drop offset.toNat) offset).getD offset

/-- The function `RemoveInternalData`: the response without its `RouterId`
field, and the client id read from that field. -/
def RemoveInternalData (response : GoString) : Except Panic (GoString × Int) := do
  let routerIdStart := Index response "RouterId".toList - 1
  let fromRouterId ← sliceFrom response routerIdStart
  let clientIdStart := Index fromRouterId "?".toList + 1 + routerIdStart
  let clientIdStop := NextQuoteMark response clientIdStart
  let clientIdText ← slice response clientIdStart clientIdStop
  let clientId := (Atoi clientIdText).1
  let fromClientIdStop ← sliceFrom response clientIdStop
  let routerIdStop := Index fromClientIdStop ",".toList + 1 + clientIdStop
  let head ← sliceTo response routerIdStart
  let tail ← sliceFrom response routerIdStop
  pure (head ++ tail, clientId)

/-! ## TLS configuration: `getTLSConfig` (lines 306-326) -/

/-- An `x509.CertPool`, as the PEM data appended to it. -/
structure CertPool where
  pem : List GoString
  deriving DecidableEq, Repr

/-- The fields of `tls.Config` that `getTLSConfig` sets. -/
structure TLSConfig where
  ServerName : GoString
  ClientAuth : Int
  ClientCAs : Option CertPool
  MinVersion : Nat
  deriving DecidableEq, Repr

/-- The value `tls.VersionTLS12`. -/
def VersionTLS12 : Nat := 0x0303

/-- The function `getTLSConfig`. `ReadFile` stands for `ioutil.ReadFile`
(`none`: the file cannot be read); the result `none` is the Go `nil`. -/
def getTLSConfig (ReadFile : GoString → Option GoString) (host caCertFile : GoString)
    (certOpt : Int) : Option TLSConfig :=
  if certOpt > RequestClientCert then
    match ReadFile caCertFile with
    | none => none
    | some caCert => some (TLSConfig.mk host certOpt (some (CertPool.mk [caCert])) VersionTLS12)
  else some (TLSConfig.mk host certOpt none VersionTLS12)

/-! ## Listener start-up: `InitClientServer` (lines 254-291) -/

/-- Modelled from the spec: the type of the process-wide `secConfig` is declared
outside this file; these are the fields `InitClientServer` reads (the enable
flag, the secure ports, the paths to the CA and server material and the
client-certificate policy). -/
structure SecConfig where
  TransportSec : GoString
  HttpSecPort : GoString
  WsSecPort : GoString
  CaSecPath : GoString
  ServerSecPath : GoString
  ServerCertOpt : GoString
  deriving DecidableEq, Repr

/-- The listener call that ends `InitClientServer`. -/
inductive ListenCall where
  /-- Stands for `http.Server{Addr, TLSConfig, Handler}.ListenAndServeTLS(certFile, keyFile)`. -/
  | ListenAndServeTLS (Addr : GoString) (TLSConfig : Option TLSConfig)
      (certFile keyFile : GoString)
  /-- Stands for `http.ListenAndServe(addr, handler)`. -/
  | ListenAndServe (addr : GoString)
  deriving DecidableEq, Repr

/-- The method `HttpServer.InitClientServer`: the listener it starts.
`trSecConfigPath` is a package variable defined outside this file. -/
def HttpServer.InitClientServer (ReadFile : GoString → Option GoString)
    (trSecConfigPath : GoString) (secConfig : SecConfig) : ListenCall :=
  if secConfig.TransportSec = "yes".toList then
    let secPortNum := (Atoi secConfig.HttpSecPort).1
    ListenCall.ListenAndServeTLS (":".toList ++ Itoa secPortNum)
      (getTLSConfig ReadFile "localhost".toList
        (trSecConfigPath ++ secConfig.CaSecPath ++ "Root.CA.crt".toList)
        (certOptToInt secConfig.ServerCertOpt))
      (trSecConfigPath ++ secConfig.ServerSecPath ++ "server.crt".toList)
      (trSecConfigPath ++ secConfig.ServerSecPath ++ "server.key".toList)
  else ListenCall.ListenAndServe ":8888".toList

/-- The method `WsServer.InitClientServer`: the listener it starts. -/
def WsServer.InitClientServer (ReadFile : GoString → Option GoString)
    (trSecConfigPath : GoString) (secConfig : SecConfig) : ListenCall :=
  if secConfig.TransportSec = "yes".toList then
    ListenCall.ListenAndServeTLS (":".toList ++ secConfig.WsSecPort)
      (getTLSConfig ReadFile "localhost".toList
        (trSecConfigPath ++ secConfig.CaSecPath ++ "Root.CA.crt".toList)
        (certOptToInt secConfig.ServerCertOpt))
      (trSecConfigPath ++ secConfig.ServerSecPath ++ "server.crt".toList)
      (trSecConfigPath ++ secConfig.ServerSecPath ++ "server.key".toList)
  else ListenCall.ListenAndServe ":8080".toList

/-- The client-certificate policy a started listener enforces: Go's `net/http`
serves with a copy of `Server.TLSConfig`, and with an empty `tls.Config` when
that field is `nil`, whose `ClientAuth` is `tls.NoClientCert` (0). A plain
listener asks for no certificate at all. -/
def ListenCall.enforcedClientAuth : ListenCall → Int
  | .ListenAndServeTLS _ (some config) _ _ => config.ClientAuth
  | .ListenAndServeTLS _ none _ _ => 0
  | .ListenAndServe _ => 0

/-- A security configuration with transport security on, full client
verification asked for, and a CA directory that holds no readable file. -/
def unreadableCaConfig : SecConfig :=
  SecConfig.mk "yes".toList "443".toList "6443".toList "ca/".toList "server/".toList
    "ClientCertVerification".toList

/-! ## Subprotocol negotiation: `WsChannel.makeappClientHandler` (lines 198-234) -/

/-- Modelled from the spec: the type `Compression` is declared outside this
file; its modes are `NONE | PROPRIETARY | PB_LEVEL1 | PB_LEVEL2`. -/
inductive Compression where
  | NONE
  | PROPRIETARY
  | PB_LEVEL1
  | PB_LEVEL2
  deriving DecidableEq, Repr

/-- The negotiation loop of `WsChannel.makeappClientHandler` over the offered
subprotocols `websocket.Subprotocols(req)`: the compression mode and the value
set for the `Sec-Websocket-Protocol` header (`none`: the header is not set).
`InitCompression` is a function of package `utils` defined outside this file;
it reports whether the path list was loaded. -/
def WsChannel.negotiate (InitCompression : GoString → Bool) :
    List GoString → Compression × Option GoString
  | [] => (Compression.NONE, none)
  | sub :: rest =>
    if sub = "VISSv2".toList then (Compression.NONE, some sub)
    else if sub = "VISSv2prop".toList then
      if InitCompression "../vsspathlist.json".toList = true then (Compression.PROPRIETARY, some sub)
      else (Compression.NONE, some "VISSv2".toList)
    else if sub = "VISSv2pbl1".toList then (Compression.PB_LEVEL1, some sub)
    else if sub = "VISSv2pbl2".toList then
      if InitCompression "../vsspathlist.json".toList = true then (Compression.PB_LEVEL2, some sub)
      else (Compression.PB_LEVEL1, some "VISSv2pbl1".toList)
    else WsChannel.negotiate InitCompression rest

/-- The four subprotocol names the negotiation loop recognises. -/
def subprotocols : List GoString :=
  ["VISSv2".toList, "VISSv2prop".toList, "VISSv2pbl1".toList, "VISSv2pbl2".toList]

/-- Selection by the server's fixed priority order, as the specification words
it: the mode of the first name of the order VISSv2, VISSv2prop, VISSv2pbl1,
VISSv2pbl2 that is offered, and `NONE` when none of them is offered. -/
def selectByPriority (offered : List GoString) : Compression :=
  if "VISSv2".toList ∈ offered then Compression.NONE
  else if "VISSv2prop".toList ∈ offered then Compression.PROPRIETARY
  else if "VISSv2pbl1".toList ∈ offered then Compression.PB_LEVEL1
  else if "VISSv2pbl2".toList ∈ offered then Compression.PB_LEVEL2
  else Compression.NONE

/-! ## WebSocket session pumps: `frontendWSAppSession` (lines 127-152) and `backendWSAppSession` (lines 154-180) -/

/-- Modelled from the spec: the compression and serialisation codecs are
functions of package `utils` defined outside this file; the pumps only choose
which of them applies, so they are parameters here. -/
structure Codec where
  DecompressMessage : GoString → GoString
  CompressMessage : GoString → GoString
  ProtobufToJson : GoString → Compression → GoString
  JsonToProtobuf : GoString → Compression → GoString

/-- The value `websocket.TextMessage`. -/
def TextMessage : Int := 1

/-- The value `websocket.BinaryMessage`. -/
def BinaryMessage : Int := 2

/-- Lines 136-143 of `frontendWSAppSession`: the payload of a message read from
the socket, per the compression mode of the session. -/
def decodePayload (codec : Codec) (compression : Compression) (msg : GoString) : GoString :=
  if compression = Compression.PROPRIETARY then codec.DecompressMessage msg
  else if compression = Compression.PB_LEVEL1 ∨ compression = Compression.PB_LEVEL2 then
    codec.ProtobufToJson msg compression
  else msg

/-- Lines 161-173 of `backendWSAppSession`: the message type and the bytes
written for a message taken from the channel. -/
def encodeResponse (codec : Codec) (compression : Compression) (message : GoString) :
    Int × GoString :=
  if compression = Compression.PROPRIETARY then (BinaryMessage, codec.CompressMessage message)
  else if compression = Compression.PB_LEVEL1 ∨ compression = Compression.PB_LEVEL2 then
    (BinaryMessage, codec.JsonToProtobuf message compression)
  else (TextMessage, message)

/-- The channel and connection operations of the read pump, in program order. -/
inductive ReadPumpEvent where
  /-- The send `clientChannel <- payload` (line 147). -/
  | forward (payload : GoString)
  /-- The receive `response := <-clientChannel` (line 148). -/
  | receive (response : GoString)
  /-- The send `clientBackendChannel <- response` (line 150). -/
  | handOff (response : GoString)
  /-- The deferred `conn.Close()` (line 128). -/
  | close
  deriving DecidableEq, Repr

/-- The function `frontendWSAppSession`, as the trace of its operations. Each
element of the input is one round of the loop: the message `conn.ReadMessage`
returns and the response the receive of line 148 yields; after the last round
`conn.ReadMessage` returns an error and the loop breaks.

Modelled from the spec: the hub is an external collaborator that answers each
forwarded payload with one response on the same channel, so the response of a
round is an input, with no assumption on its content. A pump that blocks for
ever on one of its channel operations performs a prefix of this trace. -/
def frontendWSAppSession (codec : Codec) (compression : Compression) :
    List (GoString × GoString) → List ReadPumpEvent
  | [] => [ReadPumpEvent.close]
  | (msg, response) :: rounds =>
    ReadPumpEvent.forward (decodePayload codec compression msg)
      :: ReadPumpEvent.receive response
      :: ReadPumpEvent.handOff response
      :: frontendWSAppSession codec compression rounds

/-- The payloads forwarded to the hub in a trace, in order. -/
def forwards : List ReadPumpEvent → List GoString
  | [] => []
  | ReadPumpEvent.forward payload :: t => payload :: forwards t
  | ReadPumpEvent.receive _ :: t => forwards t
  | ReadPumpEvent.handOff _ :: t => forwards t
  | ReadPumpEvent.close :: t => forwards t

/-- The responses received from the hub in a trace, in order. -/
def receives : List ReadPumpEvent → List GoString
  | [] => []
  | ReadPumpEvent.receive response :: t => response :: receives t
  | ReadPumpEvent.forward _ :: t => receives t
  | ReadPumpEvent.handOff _ :: t => receives t
  | ReadPumpEvent.close :: t => receives t

/-- The responses handed to the write pump in a trace, in order. -/
def handOffs : List ReadPumpEvent → List GoString
  | [] => []
  | ReadPumpEvent.handOff response :: t => response :: handOffs t
  | ReadPumpEvent.forward _ :: t => handOffs t
  | ReadPumpEvent.receive _ :: t => handOffs t
  | ReadPumpEvent.close :: t => handOffs t

/-- The connection operations of the write pump, in program order. -/
inductive WritePumpEvent where
  /-- The call `conn.WriteMessage(messageType, response)` (line 174). -/
  | WriteMessage (messageType : Int) (response : GoString)
  /-- The deferred `conn.Close()` (line 155). -/
  | close
  deriving DecidableEq, Repr

/-- The function `backendWSAppSession`, as the trace of its operations on the
messages it takes from `clientBackendChannel`, in the order it takes them.
`writeError n` tells whether the call of `conn.WriteMessage` numbered `n`
returns an error, on which the loop breaks; with no message left the pump
stays blocked on the channel. -/
def backendWSAppSession (codec : Codec) (compression : Compression) (writeError : Nat → Bool) :
    Nat → List GoString → List WritePumpEvent
  | _, [] => []
  | n, message :: queue =>
    WritePumpEvent.WriteMessage (encodeResponse codec compression message).1
        (encodeResponse codec compression message).2
      :: (if writeError n = true then [WritePumpEvent.close]
          else backendWSAppSession codec compression writeError (n + 1) queue)

/-- The messages passed to `conn.WriteMessage` in a trace, in order. -/
def writes : List WritePumpEvent → List (Int × GoString)
  | [] => []
  | WritePumpEvent.WriteMessage messageType response :: t => (messageType, response) :: writes t
  | WritePumpEvent.close :: t => writes t

/-- What a session writes to its client: the write pump run on the responses
the read pump hands off. Modelled from the spec: a Go channel delivers in the
order of sending, and the channel pair of a session is owned by that session
alone, so the write pump takes the handed-off responses in hand-off order. -/
def sessionWrites (codec : Codec) (compression : Compression) (writeError : Nat → Bool)
    (rounds : List (GoString × GoString)) : List (Int × GoString) :=
  writes (backendWSAppSession codec compression writeError 0
    (handOffs (frontendWSAppSession codec compression rounds)))

/-- The codec that leaves every message as it is. -/
def plainCodec : Codec :=
  Codec.mk (fun b => b) (fun b => b) (fun b _ => b) (fun b _ => b)

/-! ## Lemmas on the string primitives -/

theorem indexFrom_cons (substr : GoString) (c : Char) (cs : GoString) (i : Nat) :
    indexFrom substr (c :: cs) i =
      if substr.isPrefixOf (c :: cs) then (i : Int) else indexFrom substr cs (i + 1) := rfl

theorem indexFrom_append (substr pre rest : GoString) (i : Nat)
    (hpre : ∀ t, t <:+ pre → t ≠ [] → ¬ substr <+: t ++ rest)
    (hrest : substr <+: rest) :
    indexFrom substr (pre ++ rest) i = ((i + pre.length : Nat) : Int) := by
  induction pre generalizing i with
  | nil =>
    cases rest with
    | nil =>
      have : substr = [] := List.prefix_nil.mp hrest
      simp [indexFrom, this]
    | cons c cs =>
      have h : substr.isPrefixOf (c :: cs) = true := List.isPrefixOf_iff_prefix.mpr hrest
      simp [indexFrom, h]
  | cons p ps ih =>
    have h1 : ¬ substr <+: (p :: ps) ++ rest :=
      hpre (p :: ps) (List.suffix_refl _) (by simp)
    have h2 : substr.isPrefixOf (p :: (ps ++ rest)) = false := by
      rw [Bool.eq_false_iff]
      intro h
      exact h1 (by simpa using List.isPrefixOf_iff_prefix.mp h)
    have ih2 := ih (i + 1) (fun t ht hne => hpre t (List.suffix_cons_iff.mpr (Or.inr ht)) hne)
    rw [List.cons_append, indexFrom_cons, h2, ih2]
    simp only [Bool.false_eq_true, if_false, List.length_cons]
    congr 1
    omega

/-- When the byte `c` does not occur in `pre`, `strings.Index` finds it right after `pre`. -/
theorem Index_byte (pre post : GoString) (c : Char) (h : c ∉ pre) :
    Index (pre ++ c :: post) [c] = (pre.length : Int) := by
  have := indexFrom_append [c] pre (c :: post) 0 (by
    intro t ht hne hp
    cases t with
    | nil => exact hne rfl
    | cons a as =>
      rw [List.cons_append, List.cons_prefix_cons] at hp
      exact h (hp.1 ▸ ht.subset (List.mem_cons_self _ _))) (by simp)
  simpa [Index] using this

theorem indexFrom_of_not_infix (substr s : GoString) (i : Nat) (h : ¬ substr <:+: s) :
    indexFrom substr s i = -1 := by
  induction s generalizing i with
  | nil =>
    have hne : substr ≠ [] := fun he => h (he ▸ List.infix_refl _)
    simp [indexFrom, hne]
  | cons c cs ih =>
    have h2 : substr.isPrefixOf (c :: cs) = false := by
      rw [Bool.eq_false_iff]
      intro hp
      exact h (List.isPrefixOf_iff_prefix.mp hp).isInfix
    rw [indexFrom_cons, h2]
    simp only [Bool.false_eq_true, if_false]
    exact ih (i + 1) (fun hi => h (hi.trans (List.suffix_cons c cs).isInfix))

theorem Index_of_not_infix (s substr : GoString) (h : ¬ substr <:+: s) : Index s substr = -1 :=
  indexFrom_of_not_infix substr s 0 h

theorem Index_byte_absent (s : GoString) (c : Char) (h : c ∉ s) : Index s [c] = -1 :=
  Index_of_not_infix s [c] (fun hi => h (hi.subset (List.mem_singleton_self c)))

theorem sliceTo_append (a b : GoString) (n : Int) (h : n = a.length) :
    sliceTo (a ++ b) n = .ok a := by
  subst h
  simp [sliceTo]

theorem sliceFrom_append (a b : GoString) (n : Int) (h : n = a.length) :
    sliceFrom (a ++ b) n = .ok b := by
  subst h
  simp [sliceFrom]

theorem slice_append (a b c : GoString) (m n : Int) (hm : m = a.length)
    (hn : n = a.length + b.length) : slice (a ++ b ++ c) m n = .ok b := by
  subst hm hn
  have h1 : ((a.length : Int) + (b.length : Int)).toNat = (a ++ b).length := by
    simp only [List.length_append]
    omega
  have h2 : (a.length : Int) + b.length ≤ ((a ++ b ++ c).length : Int) := by
    simp only [List.length_append, Nat.cast_add]
    omega
  simp only [slice, h1, Int.toNat_ofNat, List.take_left, List.drop_left]
  simp [h2]

theorem byteAt_append (a b : GoString) (c : Char) (n : Int) (h : n = a.length) :
    byteAt (a ++ c :: b) n = .ok c := by
  subst h
  have hg : (a ++ c :: b).get? a.length = some c := by
    rw [List.get?_eq_getElem?, List.getElem?_append_right (le_refl _)]
    simp
  have hr : (0 : Int) ≤ a.length ∧ (a.length : Int) < ((a ++ c :: b).length : Int) := by
    simp only [List.length_append, List.length_cons, Nat.cast_add, Nat.cast_one]
    omega
  unfold byteAt
  rw [if_pos hr, Int.toNat_ofNat, hg]

/-! ## Lemmas on `Itoa` and `Atoi` -/

theorem digitByte_toNat (d : Nat) (h : d < 10) : (digitByte d).toNat = 48 + d := by
  interval_cases d <;> rfl

theorem digitByte_isDigit (d : Nat) (h : d < 10) : isDigitByte (digitByte d) := by
  unfold isDigitByte
  rw [digitByte_toNat d h]
  omega

theorem decimalRev_spec (fuel : Nat) : ∀ n : Nat, n < fuel →
    decimalRev fuel n ≠ [] ∧ (∀ ch ∈ decimalRev fuel n, isDigitByte ch) ∧
      valueBE 0 (decimalRev fuel n).reverse = n := by
  induction fuel with
  | zero => intro n h; exact absurd h (Nat.not_lt_zero _)
  | succ fuel ih =>
    intro n hn
    by_cases h10 : n < 10
    · have hd : decimalRev (fuel + 1) n = [digitByte n] := by
        simp [decimalRev, h10]
      rw [hd]
      refine ⟨by simp, ?_, ?_⟩
      · intro ch hch
        rw [List.mem_singleton] at hch
        exact hch ▸ digitByte_isDigit n h10
      · simp [valueBE, digitByte_toNat n h10]
    · have hd : decimalRev (fuel + 1) n = digitByte (n % 10) :: decimalRev fuel (n / 10) := by
        simp [decimalRev, h10]
      obtain ⟨_, hdig, hval⟩ := ih (n / 10) (by omega)
      have hm : n % 10 < 10 := Nat.mod_lt _ (by omega)
      rw [hd]
      refine ⟨by simp, ?_, ?_⟩
      · intro ch hch
        rcases List.mem_cons.mp hch with h | h
        · exact h ▸ digitByte_isDigit _ hm
        · exact hdig ch h
      · unfold valueBE at hval ⊢
        rw [List.reverse_cons, List.foldl_append, hval]
        simp only [List.foldl_cons, List.foldl_nil, digitByte_toNat _ hm]
        omega

theorem decimal_ne_nil (n : Nat) : decimal n ≠ [] := by
  unfold decimal
  simpa using (decimalRev_spec (n + 1) n (Nat.lt_succ_self n)).1

theorem decimal_isDigit (n : Nat) : ∀ ch ∈ decimal n, isDigitByte ch := by
  intro ch hch
  unfold decimal at hch
  exact (decimalRev_spec (n + 1) n (Nat.lt_succ_self n)).2.1 ch (List.mem_reverse.mp hch)

theorem decimal_value (n : Nat) : valueBE 0 (decimal n) = n :=
  (decimalRev_spec (n + 1) n (Nat.lt_succ_self n)).2.2

theorem le_valueBE (ds : GoString) : ∀ acc : Nat, acc ≤ valueBE acc ds := by
  induction ds with
  | nil => intro acc; exact le_refl _
  | cons c cs ih =>
    intro acc
    have := ih (acc * 10 + (c.toNat - 48))
    unfold valueBE at this ⊢
    rw [List.foldl_cons]
    omega

theorem parseUintLoop_digits (ds : GoString) : ∀ acc : Nat, (∀ ch ∈ ds, isDigitByte ch) →
    valueBE acc ds ≤ maxUint64 → parseUintLoop ds acc = (valueBE acc ds, none) := by
  induction ds with
  | nil => intro acc _ _; rfl
  | cons c cs ih =>
    intro acc hdig hle
    have hc : 48 ≤ c.toNat ∧ c.toNat ≤ 57 := hdig c (List.mem_cons_self _ _)
    have hstep : valueBE acc (c :: cs) = valueBE (acc * 10 + (c.toNat - 48)) cs := rfl
    rw [hstep] at hle ⊢
    have h1 := le_valueBE cs (acc * 10 + (c.toNat - 48))
    have h2 : acc * 10 + (c.toNat - 48) ≤ maxUint64 := le_trans h1 hle
    have h3 : ¬ (acc ≥ maxUint64 / 10 + 1) := by
      unfold maxUint64 at h2 ⊢
      omega
    have h4 : ¬ (acc * 10 + (c.toNat - 48) > maxUint64) := by omega
    rw [parseUintLoop, if_pos hc, if_neg h3, if_neg h4]
    exact ih _ (fun ch hch => hdig ch (List.mem_cons_of_mem _ hch)) hle

theorem ParseUint_decimal (n : Nat) (h : n ≤ maxUint64) : ParseUint (decimal n) = (n, none) := by
  unfold ParseUint
  rw [if_neg (decimal_ne_nil n),
    parseUintLoop_digits (decimal n) 0 (decimal_isDigit n) (by rw [decimal_value]; exact h),
    decimal_value]

theorem isDigitByte_ne (ch c : Char) (h : isDigitByte ch) (hc : c.toNat < 48 ∨ 57 < c.toNat) :
    ch ≠ c := by
  intro he
  subst he
  unfold isDigitByte at h
  omega

theorem Atoi_Itoa (c : Int) (hc : isGoInt c) : Atoi (Itoa c) = (c, none) := by
  unfold isGoInt at hc
  unfold Atoi Itoa
  by_cases hneg : c < 0
  · rw [if_pos hneg]
    have hp : ParseUint (decimal (-c).toNat) = ((-c).toNat, none) :=
      ParseUint_decimal _ (by unfold maxUint64; omega)
    have h1 : ¬ (9223372036854775808 < (-c).toNat) := by omega
    simp [ParseInt, hp, h1]
    omega
  · rw [if_neg hneg]
    obtain ⟨d, ds, hd⟩ := List.exists_cons_of_ne_nil (decimal_ne_nil c.toNat)
    have hdig : isDigitByte d := decimal_isDigit c.toNat d (hd ▸ List.mem_cons_self _ _)
    have hm : d ≠ '-' := isDigitByte_ne d '-' hdig (by decide)
    have hpl : d ≠ '+' := isDigitByte_ne d '+' hdig (by decide)
    have hp : ParseUint (d :: ds) = (c.toNat, none) := by
      rw [← hd]
      exact ParseUint_decimal _ (by unfold maxUint64; omega)
    rw [hd]
    have h1 : ¬ (9223372036854775808 ≤ c.toNat) := by omega
    simp [ParseInt, hm, hpl, hp, h1]
    omega

theorem Itoa_not_mem (i : Int) (c : Char) (hc : c.toNat < 45 ∨ 57 < c.toNat) : c ∉ Itoa i := by
  have hd : ∀ n, c ∉ decimal n := fun n hmem =>
    isDigitByte_ne c c (decimal_isDigit n c hmem) (by omega) rfl
  unfold Itoa
  split_ifs
  · intro hmem
    rcases List.mem_cons.mp hmem with h | h
    · subst h
      revert hc
      decide
    · exact hd _ h
  · exact hd _

/-! ## Lemmas on `RemoveInternalData` -/

theorem ok_bind {α β : Type} (a : α) (f : α → Except Panic β) :
    (Except.ok a >>= f) = f a := rfl

theorem prefix_of_prefix_append_cons (s a b : GoString) (c : Char) (hc : c ∉ s)
    (h : s <+: a ++ c :: b) : s <+: a := by
  induction a generalizing s with
  | nil =>
    cases s with
    | nil => exact List.nil_prefix
    | cons x xs =>
      rw [List.nil_append, List.cons_prefix_cons] at h
      exact absurd (h.1 ▸ List.mem_cons_self x xs) hc
  | cons y ys ih =>
    cases s with
    | nil => exact List.nil_prefix
    | cons x xs =>
      rw [List.cons_append, List.cons_prefix_cons] at h
      rw [List.cons_prefix_cons]
      exact ⟨h.1, ih xs (fun hm => hc (List.mem_cons_of_mem _ hm)) h.2⟩

/-- The key `R` is first found right after the byte `q` that follows `pre`, when
`pre` does not contain `R` and `q` does not occur in `R`. -/
theorem indexFrom_after_byte (R pre rest : GoString) (q : Char) (hq : q ∉ R)
    (hpre : ¬ R <:+: pre) (i : Nat) :
    indexFrom R (pre ++ q :: (R ++ rest)) i = ((i + pre.length + 1 : Nat) : Int) := by
  have hno : ∀ p : GoString, ¬ R <:+: p → R.isPrefixOf (p ++ q :: (R ++ rest)) = false := by
    intro p hp
    rw [Bool.eq_false_iff]
    intro h
    exact hp (prefix_of_prefix_append_cons R p _ q hq (List.isPrefixOf_iff_prefix.mp h)).isInfix
  induction pre generalizing i with
  | nil =>
    have h0 := hno [] hpre
    rw [List.nil_append] at h0 ⊢
    rw [indexFrom_cons, h0]
    simp only [Bool.false_eq_true, if_false]
    have := indexFrom_append R [] (R ++ rest) (i + 1)
      (fun t ht hne2 => absurd (List.suffix_nil.mp ht) hne2) (List.prefix_append R rest)
    simpa using this
  | cons p ps ih =>
    have h0 := hno (p :: ps) hpre
    have hps : ¬ R <:+: ps := fun h => hpre (h.trans (List.suffix_cons p ps).isInfix)
    rw [List.cons_append] at h0 ⊢
    rw [indexFrom_cons, h0, ih hps (i + 1)]
    simp only [Bool.false_eq_true, if_false, List.length_cons]
    congr 1
    omega

theorem scanQuoteMark_append (C b : GoString) (hC : quoteMark ∉ C) (i : Int) :
    scanQuoteMark (C ++ quoteMark :: b) i = some (i + C.length) := by
  induction C generalizing i with
  | nil => simp [scanQuoteMark]
  | cons x xs ih =>
    have hx : x ≠ quoteMark := fun h => hC (h ▸ List.mem_cons_self x xs)
    rw [List.cons_append, scanQuoteMark, if_neg hx, ih (fun h => hC (List.mem_cons_of_mem _ h))]
    simp only [List.length_cons, Nat.cast_add, Nat.cast_one]
    congr 1
    omega

theorem NextQuoteMark_append (a C b : GoString) (n : Int) (hn : n = a.length)
    (hC : quoteMark ∉ C) :
    NextQuoteMark (a ++ (C ++ quoteMark :: b)) n = (a.length : Int) + C.length := by
  subst hn
  unfold NextQuoteMark
  rw [Int.toNat_ofNat, List.drop_left, scanQuoteMark_append C b hC]
  rfl

/-- The core of the untagging: a response made of `pre`, the field
`"RouterId":"M?C",` and `post` is cut back to `pre ++ post`, and the client id is
what `Atoi` reads from `C`. -/
theorem RemoveInternalData_spliced (pre post M C : GoString)
    (hpre : ¬ "RouterId".toList <:+: pre) (hM : '?' ∉ M) (hC : quoteMark ∉ C) :
    RemoveInternalData (pre ++ (quoteMark :: ("RouterId".toList ++ (quoteMark :: ':' ::
      quoteMark :: (M ++ '?' :: (C ++ quoteMark :: ',' :: post))))))
      = .ok (pre ++ post, (Atoi C).1) := by
  have hRq : quoteMark ∉ "RouterId".toList := by decide
  have hRa : '?' ∉ "RouterId".toList := by decide
  have hqa : '?' ≠ quoteMark := by decide
  have hca : ',' ≠ quoteMark := by decide
  unfold RemoveInternalData
  rw [show "?".toList = ['?'] from rfl, show ",".toList = [','] from rfl]
  generalize "RouterId".toList = R at *
  -- the response and its decompositions
  generalize hresp : pre ++ (quoteMark :: (R ++ (quoteMark :: ':' ::
      quoteMark :: (M ++ '?' :: (C ++ quoteMark :: ',' :: post))))) = response
  let X : GoString := quoteMark :: (R ++ (quoteMark :: ':' :: quoteMark :: M))
  have hX : '?' ∉ X := by
    simp only [X, List.mem_cons, List.mem_append, not_or]
    exact ⟨hqa, hRa, hqa, by decide, hqa, hM⟩
  have d1 : response = pre ++ (X ++ '?' :: (C ++ quoteMark :: ',' :: post)) := by
    rw [← hresp]; simp [X]
  have d2 : response = (pre ++ X ++ ['?']) ++ (C ++ quoteMark :: ',' :: post) := by
    rw [d1]; simp
  have d3 : response = (pre ++ X ++ ['?']) ++ C ++ (quoteMark :: ',' :: post) := by
    rw [d1]; simp
  have d4 : response = ((pre ++ X ++ ['?']) ++ C ++ [quoteMark, ',']) ++ post := by
    rw [d1]; simp
  have hlen : ((pre ++ X ++ ['?']).length : Int) = (X.length : Int) + 1 + pre.length := by
    simp only [List.length_append, List.length_cons, List.length_nil, Nat.cast_add, Nat.cast_one]
    omega
  -- the steps of the function
  have h1 : Index response R - 1 = (pre.length : Int) := by
    rw [← hresp, Index, indexFrom_after_byte R pre _ quoteMark hRq hpre 0]
    push_cast
    omega
  have h2 : sliceFrom response (pre.length : Int)
      = .ok (X ++ '?' :: (C ++ quoteMark :: ',' :: post)) := by
    rw [d1]; exact sliceFrom_append _ _ _ rfl
  have h3 : Index (X ++ '?' :: (C ++ quoteMark :: ',' :: post)) ['?'] = (X.length : Int) :=
    Index_byte X _ '?' hX
  have h4 : NextQuoteMark response ((X.length : Int) + 1 + pre.length)
      = (X.length : Int) + 1 + pre.length + C.length := by
    rw [d2, NextQuoteMark_append _ C _ _ hlen.symm hC, hlen]
  have h5 : slice response ((X.length : Int) + 1 + pre.length)
      ((X.length : Int) + 1 + pre.length + C.length) = .ok C := by
    rw [d3]; exact slice_append _ C _ _ _ hlen.symm (by rw [hlen])
  have h6 : sliceFrom response ((X.length : Int) + 1 + pre.length + C.length)
      = .ok (quoteMark :: ',' :: post) := by
    rw [d3]
    exact sliceFrom_append _ _ _ (by rw [List.length_append, Nat.cast_add, hlen])
  have h7 : Index (quoteMark :: ',' :: post) [','] = 1 := by
    have := Index_byte [quoteMark] post ',' (by simpa using hca)
    simpa using this
  have h8 : sliceTo response (pre.length : Int) = .ok pre := by
    rw [d1]; exact sliceTo_append _ _ _ rfl
  have h9 : sliceFrom response (1 + 1 + ((X.length : Int) + 1 + pre.length + C.length))
      = .ok post := by
    rw [d4]
    refine sliceFrom_append _ _ _ ?_
    simp only [List.length_append, List.length_cons, List.length_nil, Nat.cast_add, Nat.cast_one]
    omega
  simp only [ok_bind, h1, h2, h3, h4, h5, h6, h7, h8, h9]
  rfl

/-! ## Theorems -/

/-- C8: `certOptToInt` maps "NoClientCert" to 0, "ClientCertNoVerification" to 2,
"ClientCertVerification" to 4 and every other string to 4, which is
`tls.RequireAndVerifyClientCert`, the strictest level; no string is mapped
above it, and an unknown string never gets a weaker policy. -/
theorem certOptToInt_fails_closed :
    certOptToInt "NoClientCert".toList = 0 ∧
    certOptToInt "ClientCertNoVerification".toList = 2 ∧
    certOptToInt "ClientCertVerification".toList = 4 ∧
    (∀ s : GoString, s ≠ "NoClientCert".toList → s ≠ "ClientCertNoVerification".toList →
      s ≠ "ClientCertVerification".toList → certOptToInt s = RequireAndVerifyClientCert) ∧
    (∀ s : GoString, certOptToInt s ≤ RequireAndVerifyClientCert) := by
  refine ⟨by decide, by decide, by decide, ?_, ?_⟩
  · intro s h1 h2 h3
    unfold certOptToInt
    rw [if_neg h1, if_neg h2, if_neg h3]
    rfl
  · intro s
    unfold certOptToInt RequireAndVerifyClientCert
    split_ifs <;> decide

/-- C9: for a path `p` without `?` and any text `v`, `splitToPathQueryKeyValue`
splits `p?filter=v` into `(p, "filter", v)` and `p?metadata=v` into
`(p, "metadata", v)` without any index out of range, and returns `p` itself
with empty key and value. -/
theorem splitToPathQueryKeyValue_query (p v : GoString) (hp : '?' ∉ p) :
    splitToPathQueryKeyValue (p ++ "?filter=".toList ++ v) = .ok (p, "filter".toList, v) ∧
    splitToPathQueryKeyValue (p ++ "?metadata=".toList ++ v) = .ok (p, "metadata".toList, v) ∧
    splitToPathQueryKeyValue p = .ok (p, [], []) := by
  refine ⟨?_, ?_, ?_⟩
  · have hi : Index (p ++ "?filter=".toList ++ v) "?".toList = (p.length : Int) := by
      have := Index_byte p ("filter=".toList ++ v) '?' hp
      simpa using this
    have hb : byteAt (p ++ "?filter=".toList ++ v) ((p.length : Int) + 1) = .ok 'f' := by
      have := byteAt_append (p ++ "?".toList) ("ilter=".toList ++ v) 'f' ((p.length : Int) + 1)
        (by simp)
      simpa using this
    have ht : sliceTo (p ++ "?filter=".toList ++ v) (p.length : Int) = .ok p := by
      rw [List.append_assoc]
      exact sliceTo_append _ _ _ rfl
    have hf : sliceFrom (p ++ "?filter=".toList ++ v) ((p.length : Int) + 8) = .ok v :=
      sliceFrom_append _ _ _ (by simp)
    have hne : (p.length : Int) ≠ -1 := by omega
    simp only [splitToPathQueryKeyValue, hi, hb, ht, hf, ne_eq, hne, not_false_eq_true, if_true]
    rfl
  · have hi : Index (p ++ "?metadata=".toList ++ v) "?".toList = (p.length : Int) := by
      have := Index_byte p ("metadata=".toList ++ v) '?' hp
      simpa using this
    have hb : byteAt (p ++ "?metadata=".toList ++ v) ((p.length : Int) + 1) = .ok 'm' := by
      have := byteAt_append (p ++ "?".toList) ("etadata=".toList ++ v) 'm' ((p.length : Int) + 1)
        (by simp)
      simpa using this
    have ht : sliceTo (p ++ "?metadata=".toList ++ v) (p.length : Int) = .ok p := by
      rw [List.append_assoc]
      exact sliceTo_append _ _ _ rfl
    have hf : sliceFrom (p ++ "?metadata=".toList ++ v) ((p.length : Int) + 10) = .ok v :=
      sliceFrom_append _ _ _ (by simp)
    have hne : (p.length : Int) ≠ -1 := by omega
    simp only [splitToPathQueryKeyValue, hi, hb, ht, hf, ne_eq, hne, not_false_eq_true, if_true]
    rfl
  · have hi : Index p "?".toList = -1 := Index_byte_absent p '?' hp
    simp only [splitToPathQueryKeyValue, hi, ne_eq, not_true_eq_false, if_false]
    rfl

/-- Witness of C9 on the specification's example: `/A/B?filter=[x=1]` splits
into `/A/B`, `filter` and `[x=1]`. -/
theorem splitToPathQueryKeyValue_query_witness :
    splitToPathQueryKeyValue "/A/B?filter=[x=1]".toList
      = .ok ("/A/B".toList, "filter".toList, "[x=1]".toList) ∧
    splitToPathQueryKeyValue "/A/B?metadata=static".toList
      = .ok ("/A/B".toList, "metadata".toList, "static".toList) ∧
    splitToPathQueryKeyValue "/A/B".toList = .ok ("/A/B".toList, [], []) :=
  ⟨(splitToPathQueryKeyValue_query "/A/B".toList "[x=1]".toList (by decide)).1,
   (splitToPathQueryKeyValue_query "/A/B".toList "static".toList (by decide)).2.1,
   (splitToPathQueryKeyValue_query "/A/B".toList [] (by decide)).2.2⟩

/-- C4: when the policy is above `tls.RequestClientCert` (as
`ClientCertVerification`, i.e. `tls.RequireAndVerifyClientCert`, is) and the CA
file cannot be read, `getTLSConfig` returns `nil`, for every host name and CA
file path. -/
theorem getTLSConfig_fails_closed (ReadFile : GoString → Option GoString)
    (host caCertFile : GoString) (certOpt : Int) (hopt : certOpt > RequestClientCert)
    (hread : ReadFile caCertFile = none) :
    getTLSConfig ReadFile host caCertFile certOpt = none := by
  unfold getTLSConfig
  rw [if_pos hopt, hread]

/-- Witness of C4: the policy `ClientCertVerification` with no readable file. -/
theorem getTLSConfig_fails_closed_witness :
    getTLSConfig (fun _ => none) "localhost".toList "ca/Root.CA.crt".toList
      (certOptToInt "ClientCertVerification".toList) = none :=
  getTLSConfig_fails_closed (fun _ => none) "localhost".toList "ca/Root.CA.crt".toList
    (certOptToInt "ClientCertVerification".toList) (by decide) rfl

/-- C5 at the failing input: with `TransportSec = "yes"`, the policy
`ClientCertVerification` and an unreadable CA file, `getTLSConfig` yields `nil`,
and both `HttpServer.InitClientServer` and `WsServer.InitClientServer` still
call `ListenAndServeTLS`, with the `nil` configuration, so that the listener
enforces `tls.NoClientCert` (0) in place of the level 4 asked for. -/
theorem InitClientServer_listens_with_nil_TLSConfig :
    getTLSConfig (fun _ => none) "localhost".toList "../transport_sec/ca/Root.CA.crt".toList
      (certOptToInt unreadableCaConfig.ServerCertOpt) = none ∧
    HttpServer.InitClientServer (fun _ => none) "../transport_sec/".toList unreadableCaConfig
      = ListenCall.ListenAndServeTLS ":443".toList none
          "../transport_sec/server/server.crt".toList
          "../transport_sec/server/server.key".toList ∧
    WsServer.InitClientServer (fun _ => none) "../transport_sec/".toList unreadableCaConfig
      = ListenCall.ListenAndServeTLS ":6443".toList none
          "../transport_sec/server/server.crt".toList
          "../transport_sec/server/server.key".toList ∧
    (HttpServer.InitClientServer (fun _ => none) "../transport_sec/".toList
      unreadableCaConfig).enforcedClientAuth = 0 ∧
    (WsServer.InitClientServer (fun _ => none) "../transport_sec/".toList
      unreadableCaConfig).enforcedClientAuth = 0 ∧
    certOptToInt unreadableCaConfig.ServerCertOpt = RequireAndVerifyClientCert := by
  decide

theorem negotiate_skip (InitCompression : GoString → Bool) (pre rest : List GoString)
    (hpre : ∀ x ∈ pre, x ∉ subprotocols) :
    WsChannel.negotiate InitCompression (pre ++ rest) = WsChannel.negotiate InitCompression rest := by
  induction pre with
  | nil => rfl
  | cons x xs ih =>
    have hx : x ∉ subprotocols := hpre x (List.mem_cons_self _ _)
    simp only [subprotocols, List.mem_cons, List.mem_singleton, List.not_mem_nil, or_false,
      not_or] at hx
    obtain ⟨h1, h2, h3, h4⟩ := hx
    rw [List.cons_append, WsChannel.negotiate, if_neg h1, if_neg h2, if_neg h3, if_neg h4]
    exact ih (fun y hy => hpre y (List.mem_cons_of_mem _ hy))

theorem negotiate_recognised (InitCompression : GoString → Bool) (s : GoString)
    (post : List GoString) (hs : s ∈ subprotocols) :
    WsChannel.negotiate InitCompression (s :: post) = WsChannel.negotiate InitCompression [s] := by
  simp only [subprotocols, List.mem_cons, List.mem_singleton, List.not_mem_nil, or_false] at hs
  rcases hs with h | h | h | h <;> subst h <;> simp [WsChannel.negotiate]

/-- C6, as the code has it: the negotiation takes the first offered name, in
the order the client listed them, that is one of VISSv2, VISSv2prop, VISSv2pbl1,
VISSv2pbl2: names before it that are none of the four are skipped and what
follows it is ignored. That name alone gives NONE for VISSv2 and PB_LEVEL1 for
VISSv2pbl1 whatever the path list; it gives PROPRIETARY for VISSv2prop and
PB_LEVEL2 for VISSv2pbl2 when the path list is available, each with the name
echoed, and the downgrades to NONE with VISSv2 and to PB_LEVEL1 with
VISSv2pbl1 when it is not. When none of the four is offered the mode is NONE
and no subprotocol is echoed. -/
theorem negotiate_first_offered_wins (InitCompression : GoString → Bool) :
    (∀ pre s post, (∀ x ∈ pre, x ∉ subprotocols) → s ∈ subprotocols →
      WsChannel.negotiate InitCompression (pre ++ s :: post)
        = WsChannel.negotiate InitCompression [s]) ∧
    (∀ offered, (∀ x ∈ offered, x ∉ subprotocols) →
      WsChannel.negotiate InitCompression offered = (Compression.NONE, none)) ∧
    WsChannel.negotiate InitCompression ["VISSv2".toList]
      = (Compression.NONE, some "VISSv2".toList) ∧
    WsChannel.negotiate InitCompression ["VISSv2pbl1".toList]
      = (Compression.PB_LEVEL1, some "VISSv2pbl1".toList) ∧
    (InitCompression "../vsspathlist.json".toList = true →
      WsChannel.negotiate InitCompression ["VISSv2prop".toList]
        = (Compression.PROPRIETARY, some "VISSv2prop".toList) ∧
      WsChannel.negotiate InitCompression ["VISSv2pbl2".toList]
        = (Compression.PB_LEVEL2, some "VISSv2pbl2".toList)) ∧
    (InitCompression "../vsspathlist.json".toList = false →
      WsChannel.negotiate InitCompression ["VISSv2prop".toList]
        = (Compression.NONE, some "VISSv2".toList) ∧
      WsChannel.negotiate InitCompression ["VISSv2pbl2".toList]
        = (Compression.PB_LEVEL1, some "VISSv2pbl1".toList)) := by
  refine ⟨?_, ?_, ?_, ?_, ?_, ?_⟩
  · intro pre s post hpre hs
    rw [negotiate_skip InitCompression pre (s :: post) hpre]
    exact negotiate_recognised InitCompression s post hs
  · intro offered h
    have := negotiate_skip InitCompression offered [] h
    rw [List.append_nil] at this
    rw [this]
    rfl
  · simp [WsChannel.negotiate]
  · simp [WsChannel.negotiate]
  · intro h
    simp [WsChannel.negotiate]
    exact h
  · intro h
    simp [WsChannel.negotiate]
    exact h

/-- Witness of C6 as amended: the client lists VISSv2pbl1 before VISSv2 and gets
PB_LEVEL1, with the path list available or not. -/
theorem negotiate_first_offered_wins_witness :
    WsChannel.negotiate (fun _ => true) ["gzip".toList, "VISSv2pbl1".toList, "VISSv2".toList]
      = WsChannel.negotiate (fun _ => true) ["VISSv2pbl1".toList] ∧
    WsChannel.negotiate (fun _ => true) ["gzip".toList] = (Compression.NONE, none) ∧
    WsChannel.negotiate (fun _ => false) ["VISSv2".toList]
      = (Compression.NONE, some "VISSv2".toList) ∧
    WsChannel.negotiate (fun _ => false) ["VISSv2pbl1".toList]
      = (Compression.PB_LEVEL1, some "VISSv2pbl1".toList) ∧
    WsChannel.negotiate (fun _ => true) ["VISSv2prop".toList]
      = (Compression.PROPRIETARY, some "VISSv2prop".toList) ∧
    WsChannel.negotiate (fun _ => true) ["VISSv2pbl2".toList]
      = (Compression.PB_LEVEL2, some "VISSv2pbl2".toList) :=
  ⟨(negotiate_first_offered_wins (fun _ => true)).1 ["gzip".toList] "VISSv2pbl1".toList
      ["VISSv2".toList] (by decide) (by decide),
   (negotiate_first_offered_wins (fun _ => true)).2.1 ["gzip".toList] (by decide),
   (negotiate_first_offered_wins (fun _ => false)).2.2.1,
   (negotiate_first_offered_wins (fun _ => false)).2.2.2.1,
   ((negotiate_first_offered_wins (fun _ => true)).2.2.2.2.1 rfl).1,
   ((negotiate_first_offered_wins (fun _ => true)).2.2.2.2.1 rfl).2⟩

/-- Counterexample to C6 as stated: offered VISSv2pbl1 then VISSv2, the loop
selects PB_LEVEL1 (and echoes VISSv2pbl1) although VISSv2 comes first in the
fixed priority order, which would give NONE. -/
theorem negotiate_not_by_priority :
    WsChannel.negotiate (fun _ => true) ["VISSv2pbl1".toList, "VISSv2".toList]
      = (Compression.PB_LEVEL1, some "VISSv2pbl1".toList) ∧
    selectByPriority ["VISSv2pbl1".toList, "VISSv2".toList] = Compression.NONE ∧
    (WsChannel.negotiate (fun _ => true) ["VISSv2pbl1".toList, "VISSv2".toList]).1
      ≠ selectByPriority ["VISSv2pbl1".toList, "VISSv2".toList] := by
  decide

/-- C7: when `InitCompression` fails, an offer whose first recognised name is
VISSv2prop yields mode NONE and echoes VISSv2, an offer whose first recognised
name is VISSv2pbl2 yields PB_LEVEL1 and echoes VISSv2pbl1, and no offer at all
yields PROPRIETARY or PB_LEVEL2. -/
theorem negotiate_fallback (InitCompression : GoString → Bool)
    (hinit : InitCompression "../vsspathlist.json".toList = false) :
    (∀ pre post, (∀ x ∈ pre, x ∉ subprotocols) →
      WsChannel.negotiate InitCompression (pre ++ "VISSv2prop".toList :: post)
        = (Compression.NONE, some "VISSv2".toList)) ∧
    (∀ pre post, (∀ x ∈ pre, x ∉ subprotocols) →
      WsChannel.negotiate InitCompression (pre ++ "VISSv2pbl2".toList :: post)
        = (Compression.PB_LEVEL1, some "VISSv2pbl1".toList)) ∧
    (∀ offered, (WsChannel.negotiate InitCompression offered).1 ≠ Compression.PROPRIETARY ∧
      (WsChannel.negotiate InitCompression offered).1 ≠ Compression.PB_LEVEL2) := by
  refine ⟨?_, ?_, ?_⟩
  · intro pre post hpre
    rw [negotiate_skip InitCompression pre _ hpre]
    simp [WsChannel.negotiate]
    exact hinit
  · intro pre post hpre
    rw [negotiate_skip InitCompression pre _ hpre]
    simp [WsChannel.negotiate]
    exact hinit
  · intro offered
    induction offered with
    | nil => simp [WsChannel.negotiate]
    | cons x xs ih =>
      rw [WsChannel.negotiate]
      split_ifs <;> first | exact ih | simp_all

/-- Witness of C7 on the specification's two offers, and on an offer with an
unknown name in front. -/
theorem negotiate_fallback_witness :
    WsChannel.negotiate (fun _ => false) ["VISSv2prop".toList]
      = (Compression.NONE, some "VISSv2".toList) ∧
    WsChannel.negotiate (fun _ => false) ["VISSv2pbl2".toList]
      = (Compression.PB_LEVEL1, some "VISSv2pbl1".toList) ∧
    WsChannel.negotiate (fun _ => false) ["gzip".toList, "VISSv2pbl2".toList, "VISSv2".toList]
      = (Compression.PB_LEVEL1, some "VISSv2pbl1".toList) :=
  ⟨(negotiate_fallback (fun _ => false) rfl).1 [] [] (by decide),
   (negotiate_fallback (fun _ => false) rfl).2.1 [] [] (by decide),
   (negotiate_fallback (fun _ => false) rfl).2.1 ["gzip".toList] ["VISSv2".toList] (by decide)⟩

theorem AddRoutingForwardRequest_object (rest : GoString) (mgrId clientId : Int) :
    AddRoutingForwardRequest (openBrace :: rest) mgrId clientId
      = [openBrace, ' '] ++ (quoteMark :: ("RouterId".toList ++ (quoteMark :: ':' ::
          quoteMark :: (Itoa mgrId ++ '?' :: (Itoa clientId ++ quoteMark :: ',' :: ' ' :: rest))))) := by
  have hi : Index (openBrace :: rest) "\x7b".toList = 0 := by
    have := Index_byte [] rest openBrace (List.not_mem_nil _)
    simpa using this
  have hk : "\x7b \"RouterId\":\"".toList
      = [openBrace, ' '] ++ (quoteMark :: ("RouterId".toList ++ [quoteMark, ':', quoteMark])) := by
    decide
  have hs : "\", ".toList = [quoteMark, ',', ' '] := by decide
  have hb : "\x7b".toList.length = 1 := rfl
  unfold AddRoutingForwardRequest ReplaceFirst
  simp only [hi, hk, hs, hb, show "?".toList = ['?'] from rfl]
  simp

/-- C1, as the code has it: for an envelope that begins with the opening brace,
every manager id and every client id (a Go `int`), `RemoveInternalData` applied
to the request that `AddRoutingForwardRequest` sends returns the client id and
the envelope with two blanks left behind its opening brace. -/
theorem RemoveInternalData_AddRoutingForwardRequest (rest : GoString) (mgrId clientId : Int)
    (hc : isGoInt clientId) :
    RemoveInternalData (AddRoutingForwardRequest (openBrace :: rest) mgrId clientId)
      = .ok (openBrace :: ' ' :: ' ' :: rest, clientId) := by
  rw [AddRoutingForwardRequest_object,
    RemoveInternalData_spliced [openBrace, ' '] (' ' :: rest) (Itoa mgrId) (Itoa clientId)
      (by decide) (Itoa_not_mem mgrId '?' (by decide)) (Itoa_not_mem clientId quoteMark (by decide)),
    Atoi_Itoa clientId hc]
  rfl

/-- Witness of C1 as amended, on the envelope of a get request. -/
theorem RemoveInternalData_AddRoutingForwardRequest_witness :
    RemoveInternalData (AddRoutingForwardRequest
        (openBrace :: "\"action\":\"get\",\"path\":\"Vehicle.Speed\"\x7d".toList) 0 7)
      = .ok (openBrace :: ' ' :: ' ' :: "\"action\":\"get\",\"path\":\"Vehicle.Speed\"\x7d".toList, 7) :=
  RemoveInternalData_AddRoutingForwardRequest _ 0 7 (by decide)

/-- Counterexample to C1 as stated: the envelope of manager 1, client 2 comes
back with two blanks after its opening brace, not character for character. -/
theorem RemoveInternalData_AddRoutingForwardRequest_not_exact :
    AddRoutingForwardRequest "\x7b\"path\":\"A\"\x7d".toList 1 2
      = "\x7b \"RouterId\":\"1?2\", \"path\":\"A\"\x7d".toList ∧
    RemoveInternalData (AddRoutingForwardRequest "\x7b\"path\":\"A\"\x7d".toList 1 2)
      = .ok ("\x7b  \"path\":\"A\"\x7d".toList, 2) ∧
    RemoveInternalData (AddRoutingForwardRequest "\x7b\"path\":\"A\"\x7d".toList 1 2)
      ≠ .ok ("\x7b\"path\":\"A\"\x7d".toList, 2) := by
  decide

/-- C2: for a prefix `pre` that does not contain "RouterId", any suffix `post`,
any manager id and any client id (a Go `int`), `RemoveInternalData` applied to
`pre`, the field `"RouterId":"m?c",` and `post` returns exactly `pre ++ post`,
with the field removed whole wherever it stands and however long its numbers
are, and the client id `c`. -/
theorem RemoveInternalData_untags (pre post : GoString) (m c : Int)
    (hpre : ¬ "RouterId".toList <:+: pre) (hc : isGoInt c) :
    RemoveInternalData (pre ++ "\"RouterId\":\"".toList ++ Itoa m ++ "?".toList ++ Itoa c
        ++ "\",".toList ++ post)
      = .ok (pre ++ post, c) := by
  have hk : "\"RouterId\":\"".toList
      = quoteMark :: ("RouterId".toList ++ [quoteMark, ':', quoteMark]) := by decide
  have hs : "\",".toList = [quoteMark, ','] := by decide
  have hshape : pre ++ "\"RouterId\":\"".toList ++ Itoa m ++ "?".toList ++ Itoa c
        ++ "\",".toList ++ post
      = pre ++ (quoteMark :: ("RouterId".toList ++ (quoteMark :: ':' ::
          quoteMark :: (Itoa m ++ '?' :: (Itoa c ++ quoteMark :: ',' :: post))))) := by
    rw [hk, hs, show "?".toList = ['?'] from rfl]
    simp only [List.append_assoc, List.cons_append, List.nil_append]
  rw [hshape,
    RemoveInternalData_spliced pre post (Itoa m) (Itoa c) hpre
      (Itoa_not_mem m '?' (by decide)) (Itoa_not_mem c quoteMark (by decide)),
    Atoi_Itoa c hc]

/-- Witness of C2: the field in the middle of a response, with a negative
manager id and a three-digit client id. -/
theorem RemoveInternalData_untags_witness :
    RemoveInternalData ("\x7b\"action\":\"get\", ".toList ++ "\"RouterId\":\"".toList
        ++ Itoa (-1) ++ "?".toList ++ Itoa 123 ++ "\",".toList ++ " \"value\":\"5\"\x7d".toList)
      = .ok ("\x7b\"action\":\"get\", ".toList ++ " \"value\":\"5\"\x7d".toList, 123) :=
  RemoveInternalData_untags _ _ (-1) 123 (by decide) (by decide)

/-- C3: on a response that does not contain "RouterId", `RemoveInternalData`
returns no result: `strings.Index` gives -1, the slice `response[-2:]` is out
of bounds and the function ends in a run-time panic. -/
theorem RemoveInternalData_missing_key (response : GoString)
    (h : ¬ "RouterId".toList <:+: response) :
    RemoveInternalData response = .error Panic.sliceBoundsOutOfRange ∧
    ∀ r : GoString × Int, RemoveInternalData response ≠ .ok r := by
  have hi := Index_of_not_infix response "RouterId".toList h
  have hp : RemoveInternalData response = .error Panic.sliceBoundsOutOfRange := by
    unfold RemoveInternalData
    rw [hi]
    rfl
  exact ⟨hp, fun r hr => by rw [hp] at hr; exact Except.noConfusion hr⟩

/-- Witness of C3: an error response of the hub that carries no routing field. -/
theorem RemoveInternalData_missing_key_witness :
    RemoveInternalData "\x7b\"error\":\"404\"\x7d".toList = .error Panic.sliceBoundsOutOfRange ∧
    ∀ r : GoString × Int, RemoveInternalData "\x7b\"error\":\"404\"\x7d".toList ≠ .ok r :=
  RemoveInternalData_missing_key "\x7b\"error\":\"404\"\x7d".toList (by decide)

theorem frontendWSAppSession_before_forward (codec : Codec) (compression : Compression) :
    ∀ (rounds : List (GoString × GoString)) (pre : List ReadPumpEvent) (p : GoString)
      (post : List ReadPumpEvent),
      frontendWSAppSession codec compression rounds = pre ++ ReadPumpEvent.forward p :: post →
      (rounds.get? (forwards pre).length).map (fun r => decodePayload codec compression r.1)
          = some p ∧
        forwards pre = (rounds.take (forwards pre).length).map
          (fun r => decodePayload codec compression r.1) ∧
        receives pre = (rounds.take (forwards pre).length).map Prod.snd ∧
        handOffs pre = (rounds.take (forwards pre).length).map Prod.snd := by
  intro rounds
  induction rounds with
  | nil =>
    intro pre p post h
    cases pre with
    | nil => simp [frontendWSAppSession] at h
    | cons x xs => simp [frontendWSAppSession] at h
  | cons r rs ih =>
    obtain ⟨msg, response⟩ := r
    intro pre p post h
    rw [frontendWSAppSession] at h
    cases pre with
    | nil =>
      rw [List.nil_append, List.cons.injEq] at h
      have hp : decodePayload codec compression msg = p := ReadPumpEvent.forward.inj h.1
      simp [forwards, receives, handOffs, hp]
    | cons x xs =>
      rw [List.cons_append, List.cons.injEq] at h
      obtain ⟨hx, h⟩ := h
      cases xs with
      | nil => simp at h
      | cons y ys =>
        rw [List.cons_append, List.cons.injEq] at h
        obtain ⟨hy, h⟩ := h
        cases ys with
        | nil => simp at h
        | cons z zs =>
          rw [List.cons_append, List.cons.injEq] at h
          obtain ⟨hz, h⟩ := h
          obtain ⟨h1, h2, h3, h4⟩ := ih zs p post h
          subst hx hy hz
          simp only [forwards, receives, handOffs, List.length_cons, List.get?_cons_succ,
            List.take_succ_cons, List.map_cons]
          exact ⟨h1, by rw [← h2], by rw [← h3], by rw [← h4]⟩

theorem handOffs_frontendWSAppSession (codec : Codec) (compression : Compression)
    (rounds : List (GoString × GoString)) :
    handOffs (frontendWSAppSession codec compression rounds) = rounds.map Prod.snd := by
  induction rounds with
  | nil => rfl
  | cons r rs ih =>
    obtain ⟨msg, response⟩ := r
    simp [frontendWSAppSession, handOffs, ih]

theorem writes_backendWSAppSession_prefix (codec : Codec) (compression : Compression)
    (writeError : Nat → Bool) (queue : List GoString) : ∀ n : Nat,
    writes (backendWSAppSession codec compression writeError n queue)
      <+: queue.map (encodeResponse codec compression) := by
  induction queue with
  | nil => intro n; exact List.prefix_refl _
  | cons m ms ih =>
    intro n
    rw [backendWSAppSession, writes, List.map_cons, List.cons_prefix_cons]
    refine ⟨rfl, ?_⟩
    split_ifs
    · exact List.nil_prefix
    · exact ih (n + 1)

theorem writes_backendWSAppSession_all (codec : Codec) (compression : Compression)
    (writeError : Nat → Bool) (hw : ∀ n, writeError n = false) (queue : List GoString) :
    ∀ n : Nat, writes (backendWSAppSession codec compression writeError n queue)
      = queue.map (encodeResponse codec compression) := by
  induction queue with
  | nil => intro n; rfl
  | cons m ms ih =>
    intro n
    rw [backendWSAppSession, writes, List.map_cons, hw n]
    simp only [Bool.false_eq_true, if_false]
    rw [ih (n + 1)]

theorem frontendWSAppSession_rounds (codec : Codec) (compression : Compression)
    (rounds : List (GoString × GoString)) :
    frontendWSAppSession codec compression rounds
      = (rounds.map (fun r => [ReadPumpEvent.forward (decodePayload codec compression r.1),
          ReadPumpEvent.receive r.2, ReadPumpEvent.handOff r.2])).flatten
        ++ [ReadPumpEvent.close] := by
  induction rounds with
  | nil => rfl
  | cons r rs ih =>
    obtain ⟨msg, response⟩ := r
    simp [frontendWSAppSession, ih]

/-- C10: the read pump works round by round, each message of the client being
forwarded, its response received and then handed to the write pump before the
next message is read. So whenever a payload is forwarded to the hub it is the
payload of the next message of the client, and every payload forwarded before
it has had its response received and handed off, in request order; the read
pump hands off exactly the responses in request order; what the write pump
writes to the client is an initial part of the encoded responses in request
order, and all of them when no write fails. -/
theorem session_responses_in_request_order (codec : Codec) (compression : Compression)
    (writeError : Nat → Bool) (rounds : List (GoString × GoString)) :
    frontendWSAppSession codec compression rounds
      = (rounds.map (fun r => [ReadPumpEvent.forward (decodePayload codec compression r.1),
          ReadPumpEvent.receive r.2, ReadPumpEvent.handOff r.2])).flatten
        ++ [ReadPumpEvent.close] ∧
    (∀ pre p post,
      frontendWSAppSession codec compression rounds = pre ++ ReadPumpEvent.forward p :: post →
      (rounds.get? (forwards pre).length).map (fun r => decodePayload codec compression r.1)
          = some p ∧
        forwards pre = (rounds.take (forwards pre).length).map
          (fun r => decodePayload codec compression r.1) ∧
        receives pre = (rounds.take (forwards pre).length).map Prod.snd ∧
        handOffs pre = (rounds.take (forwards pre).length).map Prod.snd) ∧
    handOffs (frontendWSAppSession codec compression rounds) = rounds.map Prod.snd ∧
    sessionWrites codec compression writeError rounds
      <+: rounds.map (fun r => encodeResponse codec compression r.2) ∧
    ((∀ n, writeError n = false) →
      sessionWrites codec compression writeError rounds
        = rounds.map (fun r => encodeResponse codec compression r.2)) := by
  have hmap : (rounds.map Prod.snd).map (encodeResponse codec compression)
      = rounds.map (fun r => encodeResponse codec compression r.2) := by
    rw [List.map_map]
    rfl
  refine ⟨frontendWSAppSession_rounds codec compression rounds,
    frontendWSAppSession_before_forward codec compression rounds,
    handOffs_frontendWSAppSession codec compression rounds, ?_, ?_⟩
  · unfold sessionWrites
    rw [handOffs_frontendWSAppSession, ← hmap]
    exact writes_backendWSAppSession_prefix codec compression writeError _ 0
  · intro hw
    unfold sessionWrites
    rw [handOffs_frontendWSAppSession, ← hmap]
    exact writes_backendWSAppSession_all codec compression writeError hw _ 0

/-- Witness of C10 on a session of two messages M1 and M2 with responses R1 and
R2: when M2 is forwarded, R1 has been received and handed off, and the client
is written R1 and then R2. -/
theorem session_responses_in_request_order_witness :
    frontendWSAppSession plainCodec Compression.NONE
        [("M1".toList, "R1".toList), ("M2".toList, "R2".toList)]
      = [ReadPumpEvent.forward "M1".toList, ReadPumpEvent.receive "R1".toList,
          ReadPumpEvent.handOff "R1".toList] ++ ReadPumpEvent.forward "M2".toList
          :: [ReadPumpEvent.receive "R2".toList, ReadPumpEvent.handOff "R2".toList,
            ReadPumpEvent.close] ∧
    handOffs [ReadPumpEvent.forward "M1".toList, ReadPumpEvent.receive "R1".toList,
        ReadPumpEvent.handOff "R1".toList] = ["R1".toList] ∧
    sessionWrites plainCodec Compression.NONE (fun _ => false)
        [("M1".toList, "R1".toList), ("M2".toList, "R2".toList)]
      = [(TextMessage, "R1".toList), (TextMessage, "R2".toList)] :=
  ⟨by decide,
   ((session_responses_in_request_order plainCodec Compression.NONE (fun _ => false)
      [("M1".toList, "R1".toList), ("M2".toList, "R2".toList)]).2.1
      [ReadPumpEvent.forward "M1".toList, ReadPumpEvent.receive "R1".toList,
        ReadPumpEvent.handOff "R1".toList] "M2".toList
      [ReadPumpEvent.receive "R2".toList, ReadPumpEvent.handOff "R2".toList,
        ReadPumpEvent.close] (by decide)).2.2.2,
   (session_responses_in_request_order plainCodec Compression.NONE (fun _ => false)
      [("M1".toList, "R1".toList), ("M2".toList, "R2".toList)]).2.2.2.2 (fun _ => rfl)⟩

end Viss2
